import Mathlib

/-!
Verification development for the ticket-execution engine
(`constitutional-agent-test/executive_worker`): the deep planner's
complexity classifier, the transactional edit engine, the shell
retry/recovery helper, the error-recovery engine, and the cyclic
controller `execute_ticket` with its crash-safe run journal.

External collaborators (the LLM oracle, the real shell, real git, the
codebase indexer, the enhanced AST tooling) are modelled as explicit
oracle functions carried in an `Env`; everything else is translated
directly from the Python source.
-/

/-! ### String helpers (substring membership, first-occurrence replace,
     lowercasing, right-strip) used by `edit_engine.py` and the
     complexity classifier in `agent.py`. -/

/-- Python `needle in hay` on strings, as lists of characters:
the empty needle is contained in everything. -/
def containsSub (needle : List Char) : List Char → Bool
  | [] => needle.isEmpty
  | c :: rest => needle.isPrefixOf (c :: rest) || containsSub needle rest

/-- Python `needle in hay` for `String`. -/
def strHasSub (hay needle : String) : Bool :=
  containsSub needle.toList hay.toList

/-- Python `s.replace(pat, new, 1)` on character lists; only invoked when
`pat` is non-empty and occurs in `s`. -/
def replaceFirst (pat new : List Char) : List Char → List Char
  | [] => []
  | c :: rest =>
      if pat.isPrefixOf (c :: rest) then new ++ (c :: rest).drop pat.length
      else c :: replaceFirst pat new rest

/-- Python `content.replace(old, new, 1)` for `String`. -/
def replaceFirstStr (s pat new : String) : String :=
  String.mk (replaceFirst pat.toList new.toList s.toList)

/-- Python `s.lower()` (ASCII model): lowercase character by character. -/
def lowerStr (s : String) : String :=
  String.mk (s.toList.map Char.toLower)

/-- Python `s.rstrip()`: drop trailing whitespace. -/
def rstrip (s : String) : String :=
  String.mk (s.toList.reverse.dropWhile Char.isWhitespace).reverse

/-- Python `suffix == s[-len(suffix):]`, i.e. `s.endswith(suffix)`. -/
def endsWithStr (s suffix : String) : Bool :=
  suffix.toList.reverse.isPrefixOf s.toList.reverse

/-- A regex word character for `\w` in `edit_engine.py`. -/
def wordChar (c : Char) : Bool :=
  c.isAlphanum || c == '_'

/-- Split a character list into its maximal leading `\w+` run and the rest. -/
def takeWordChars : List Char → List Char × List Char
  | [] => ([], [])
  | c :: rest =>
      if wordChar c then
        let p := takeWordChars rest
        (c :: p.1, p.2)
      else ([], c :: rest)

/-- Try to match the regex `pub mod (\w+);` at the start of `l`,
returning the captured module name. -/
def matchPubModHere (l : List Char) : Option (List Char) :=
  let pat := "pub mod ".toList
  if pat.isPrefixOf l then
    match takeWordChars (l.drop pat.length) with
    | (w, ';' :: _) => if w.isEmpty then none else some w
    | _ => none
  else none

/-- `re.search(r'pub mod (\w+);', s)`: first match anywhere in `s`. -/
def searchPubMod : List Char → Option (List Char)
  | [] => none
  | c :: rest =>
      match matchPubModHere (c :: rest) with
      | some w => some w
      | none => searchPubMod rest

/-! ### Workspace filesystem model and the (basic) edit engine,
     from `executive_worker/edit_engine.py`. -/

/-- The workspace files touched by the edit engine: an association list
from relative path to content.  `none` on lookup means the file does not
exist. -/
abbrev FS := List (String × String)

/-- Look up a file's content. -/
def fsGet : FS → String → Option String
  | [], _ => none
  | (p, c) :: rest, q => if p = q then some c else fsGet rest q

/-- Create or overwrite a file. -/
def fsSet : FS → String → String → FS
  | [], p, c => [(p, c)]
  | (q, d) :: rest, p, c =>
      if q = p then (p, c) :: rest else (q, d) :: fsSet rest p c

/-- Delete a file (`os.remove`). -/
def fsRemove : FS → String → FS
  | [], _ => []
  | (q, d) :: rest, p =>
      if q = p then fsRemove rest p else (q, d) :: fsRemove rest p

/-- `edit_engine.FileEdit`: path, anchor text, replacement. -/
structure FileEdit where
  path : String
  original_substring : String
  replacement : String
deriving Repr, DecidableEq

/-- The body of the per-edit content computation in
`EditEngine.apply_edits` for an existing file (lines 39-63): append on
empty anchor, first-occurrence replace when the anchor is present, the
`lib.rs` module-declaration special case, otherwise raise. -/
def editNewContent (path content sub repl : String) : Except String String :=
  if sub = "" then .ok (content ++ repl)
  else if strHasSub content sub then .ok (replaceFirstStr content sub repl)
  else if endsWithStr path "lib.rs" && strHasSub repl "pub mod" then
    match searchPubMod repl.toList with
    | some w =>
        let moduleName := String.mk w
        let decl := "pub mod " ++ moduleName ++ ";"
        if strHasSub content decl then .ok content
        else .ok (rstrip content ++ "\npub mod " ++ moduleName ++ ";\n")
    | none => .error ("Context \x27" ++ sub ++ "\x27 not found in " ++ path)
  else .error ("Context \x27" ++ sub ++ "\x27 not found in " ++ path)

/-- The `try` body of `EditEngine.apply_edits`: walk the batch in order,
recording a backup per touched file (empty-string backup for files that
did not exist).  On failure, return the error together with the
filesystem at the raise point and the backups recorded so far. -/
def applyEditsLoop (fs : FS) (backups : List (String × String)) :
    List FileEdit → Except (String × FS × List (String × String)) (FS × List (String × String))
  | [] => .ok (fs, backups)
  | e :: rest =>
      match fsGet fs e.path with
      | none =>
          applyEditsLoop (fsSet fs e.path e.replacement) (backups ++ [(e.path, "")]) rest
      | some content =>
          let backups' := backups ++ [(e.path, content)]
          match editNewContent e.path content e.original_substring e.replacement with
          | .ok newContent => applyEditsLoop (fsSet fs e.path newContent) backups' rest
          | .error msg => .error (msg, fs, backups')

/-- The `except` rollback of `EditEngine.apply_edits`: replay backups in
reverse; an empty-string backup is treated as "new file" and deleted,
any other backup is written back. -/
def rollbackFS (fs : FS) (backups : List (String × String)) : FS :=
  backups.reverse.foldl
    (fun acc pr => if pr.2 = "" then fsRemove acc pr.1 else fsSet acc pr.1 pr.2) fs

/-- `EditEngine.apply_edits` over the modelled filesystem: on success the
new filesystem, on failure the raised message together with the
filesystem after rollback. -/
def applyEdits (fs : FS) (edits : List FileEdit) : Except (String × FS) FS :=
  match applyEditsLoop fs [] edits with
  | .ok (fs', _) => .ok fs'
  | .error (msg, fsAt, backups) => .error (msg, rollbackFS fsAt backups)

/-! ### Data model, from `executive_worker/models.py`. -/

/-- `models.CommandResult`. -/
structure CommandResult where
  cmd : String
  exit_code : Int
  stdout : String
  stderr : String
  duration_ms : Nat
deriving Repr, DecidableEq

/-- `models.TestsSummary`. -/
structure TestsSummary where
  passed : Bool
  summary : String
deriving Repr, DecidableEq

/-- `models.ValidationResult`; `compiled` is tri-state. -/
structure ValidationResult where
  compiled : Option Bool := none
  tests : Option TestsSummary := none
deriving Repr, DecidableEq

/-- The optional attention director dict `{label, path}` (`Ticket.eoi`). -/
structure Eoi where
  label : String
  path : String
deriving Repr, DecidableEq

/-- `models.Ticket`. -/
structure Ticket where
  ticket_id : String
  title : String
  description : String
  eoi : Option Eoi := none
deriving Repr, DecidableEq

/-- `models.DeepPlan`. -/
structure DeepPlan where
  requirements : List String := []
  success_criteria : List String := []
  risks : List String := []
  strategy : String := ""
  estimated_complexity : String := "medium"
deriving Repr, DecidableEq

/-- One entry of the `edits` list inside an edit step's argument bag:
a dict that may or may not carry the `path`/`find`/`replace` keys. -/
structure EditSpec where
  path : Option String := none
  find : Option String := none
  replace : Option String := none
deriving Repr, DecidableEq

/-- The free-form argument bag of a plan step, restricted to the keys the
executor reads (`agent.py` lines 577-681).  Absent keys are `none`;
`semantic` and `edit_type` carry the Python `get` defaults. -/
structure StepArgs where
  pattern : Option String := none
  semantic : Bool := false
  query : Option String := none
  edits : List EditSpec := []
  path : Option String := none
  content : Option String := none
  edit_type : String := "basic"
  old_name : Option String := none
  new_name : Option String := none
  scope : Option String := none
  message : Option String := none
  cmd : Option String := none
  action : Option String := none
deriving Repr, DecidableEq

/-- `models.PlanStep`. -/
structure PlanStep where
  description : String
  kind : String
  args : StepArgs := {}
deriving Repr, DecidableEq

/-- `models.AffectedNode`; `evidence` is the `{commits, files}` dict. -/
structure AffectedNode where
  id : String
  status : String
  coverage_pct : Nat
  evidence : List String × List String
  note : String
deriving Repr, DecidableEq

/-- `models.RunLog`; `reflections` entries are the `{type, message}`
dicts as pairs. -/
structure RunLog where
  run_id : String
  task_id : String
  start_ts : String
  end_ts : Option String := none
  eoi : Option Eoi := none
  commands : List CommandResult := []
  commits : List String := []
  validation : Option ValidationResult := none
  affected_nodes : List AffectedNode := []
  reflections : List (String × String) := []
  status : String := "in_progress"
  plan_steps : Nat := 0
  current_step : Nat := 0
  error : Option String := none
  deep_plan : Option DeepPlan := none
deriving Repr, DecidableEq

/-! ### Complexity classification,
     `ExecutiveWorker.analyze_requirements_and_plan` lines 206-213. -/

/-- `"async" in str(r).lower() or "macro" in str(r).lower()`. -/
def riskyKeyword (s : String) : Bool :=
  strHasSub (lowerStr s) "async" || strHasSub (lowerStr s) "macro"

/-- The sequential reassignment of `complexity` in
`analyze_requirements_and_plan` (lines 206-213): start at `"low"`,
overwrite with `"medium"`, `"high"`, `"epic"` as each guard fires. -/
def classifyComplexity (requirements risks : List String) : String :=
  let c1 := if requirements.length > 5 || risks.length > 3 then "medium" else "low"
  let c2 := if requirements.length > 10 || (requirements ++ risks).any riskyKeyword then "high" else c1
  if requirements.length > 15 then "epic" else c2

/-! ### Error Recovery Engine, from `executive_worker/error_recovery.py`.
     `analyze_error` is a regex classifier over raw tool output; the
     claims quantify over all of its outputs, so it enters as an oracle
     parameter, while `suggest_recovery_actions` and the execution
     filter of `auto_recover` are translated from the source. -/

/-- The keys of `ErrorAnalysis.context` read by
`suggest_recovery_actions`. -/
structure AnalysisContext where
  language : Option String := none
  module_name : Option String := none
deriving Repr, DecidableEq

/-- `error_recovery.ErrorAnalysis`.  `suggested_fixes` keeps the ranked
fix strings; confidence-like fields live on `RecoveryAction`. -/
structure ErrorAnalysis where
  error_type : String
  severity : String
  file_path : Option String := none
  line_number : Option Nat := none
  column : Option Nat := none
  message : String
  suggested_fixes : List String := []
  context : AnalysisContext := {}
deriving Repr, DecidableEq

/-- `error_recovery.RecoveryAction`; confidence in [0,1] as a rational. -/
structure RecoveryAction where
  action_type : String
  description : String
  commands : List String
  files_to_modify : List String
  confidence : ℚ
deriving Repr, DecidableEq

/-- The per-analysis arm of `suggest_recovery_actions` (lines 473-519). -/
def recoveryOf (a : ErrorAnalysis) : List RecoveryAction :=
  if a.error_type = "missing_dependency" then
    if a.context.language = some "python" then
      let m := a.context.module_name.getD ""
      [{ action_type := "install_dependency",
         description := "Install Python module " ++ m,
         commands := ["pip install " ++ m],
         files_to_modify := [],
         confidence := 8/10 }]
    else if a.context.language = some "javascript" then
      let m := a.context.module_name.getD ""
      [{ action_type := "install_dependency",
         description := "Install Node.js module " ++ m,
         commands := ["npm install " ++ m],
         files_to_modify := [],
         confidence := 8/10 }]
    else []
  else if a.error_type = "syntax_error" then
    [{ action_type := "fix_syntax",
       description := "Fix syntax error",
       commands := [],
       files_to_modify := (match a.file_path with | some p => [p] | none => []),
       confidence := 6/10 }]
  else if a.error_type = "file_not_found" then
    [{ action_type := "create_file",
       description := "Create missing file",
       commands := [],
       files_to_modify := [],
       confidence := 5/10 }]
  else if a.error_type = "command_not_found" then
    [{ action_type := "install_tool",
       description := "Install missing command-line tool",
       commands := [],
       files_to_modify := [],
       confidence := 7/10 }]
  else []

/-- `IntelligentErrorHandler.suggest_recovery_actions` (lines 469-521). -/
def suggestRecoveryActions (analyses : List ErrorAnalysis) : List RecoveryAction :=
  analyses.flatMap recoveryOf

/-- The actionable set hard-coded in `auto_recover` (line 537). -/
def actionableTypes : List String := ["install_dependency"]

/-- The execution filter of `auto_recover` (lines 535-550): walk the
suggested actions; for an action passing the confidence-and-type guard,
run each of its commands through the subprocess oracle `execOk` and
append the action once per command that exits 0; guard failures and
subprocess failures append nothing. -/
def autoRecoverExec (execOk : String → Bool) (actions : List RecoveryAction) :
    List RecoveryAction :=
  actions.foldl
    (fun executed action =>
      if 8/10 ≤ action.confidence ∧ action.action_type ∈ actionableTypes then
        action.commands.foldl
          (fun ex cmd => if execOk cmd then ex ++ [action] else ex) executed
      else executed)
    []

/-- `IntelligentErrorHandler.auto_recover` (lines 523-551).  `analyze`
is the regex classifier `analyze_error` as an oracle; `execOk` tells
whether a recovery command's subprocess exits 0. -/
def autoRecover (execOk : String → Bool)
    (analyze : String → String → List ErrorAnalysis)
    (commandResult : CommandResult) : List RecoveryAction :=
  if commandResult.exit_code = 0 then []
  else
    autoRecoverExec execOk
      (suggestRecoveryActions (analyze commandResult.stderr commandResult.cmd))

/-! ### Shell execution with bounded recovery,
     `ExecutiveWorker._execute_shell_with_recovery` (lines 839-889). -/

/-- One pass of the retry loop.  `shell a c` is the `CommandResult` of
running `c` as the attempt-`a` shell invocation; `recover cmd result
attempt` is the next command chosen by the intelligent-suggestion /
fallback-heuristic block (lines 863-886), whose output only feeds the
next attempt's command string.  `remaining` is `max_attempts - attempt`;
the returned list is the sequence of shell invocations actually made. -/
def runRecovery (shell : Nat → String → CommandResult)
    (recover : String → CommandResult → Nat → String) :
    Nat → Nat → String → Option CommandResult → CommandResult × List CommandResult
  | 0, _, cmd, lastResult =>
      (lastResult.getD ⟨cmd, -1, "", "Max attempts exceeded", 0⟩, [])
  | remaining + 1, attempt, cmd, _ =>
      let result := shell attempt cmd
      if result.exit_code = 0 then (result, [result])
      else if remaining = 0 then (result, [result])
      else
        let next := recover cmd result attempt
        let rec' := runRecovery shell recover remaining (attempt + 1) next (some result)
        (rec'.1, result :: rec'.2)

/-- `_execute_shell_with_recovery(cmd, max_attempts)`: result plus the
list of shell invocations made. -/
def executeShellWithRecovery (shell : Nat → String → CommandResult)
    (recover : String → CommandResult → Nat → String)
    (cmd : String) (maxAttempts : Nat) : CommandResult × List CommandResult :=
  runRecovery shell recover maxAttempts 0 cmd none

/-! ### The cyclic controller `ExecutiveWorker.execute_ticket` and its
     collaborators, as a state-passing interpreter.

Modelling decisions, recorded once here:
* the real shell is the oracle `shellRun`, indexed by a global
  invocation counter so repeated runs of the same command may differ;
* git's own behavior behind `GitOps` is abstracted to: `git commit`
  creates exactly one commit when uncommitted changes exist, otherwise
  does nothing, and `git status --porcelain` prints a non-blank line
  exactly when uncommitted changes exist;
* the LLM planning oracle, focus selector, validation gate internals and
  semantic evaluator are per-cycle oracles (`planFor`, `chooseEoi`,
  `validationFor`, `semanticOk`); `planFor` and `chooseEoi` may raise,
  which models the controller-level exceptions of `plan_current_cycle`
  and `pick_eoi_optional`;
* the enhanced AST edit engine and semantic search are oracles
  (`rename`, `enhApply`, `semanticPreview`, `analysisInfo`);
* clock and uuid reads are the constants `timeFirst`, `startTs`,
  `endTs`, `runId`. -/

/-- The modelled state of the workspace's version control:
whether uncommitted changes exist, and the commits created so far
(by their commit message). -/
structure GitState where
  dirty : Bool
  commitLog : List String
deriving Repr, DecidableEq

/-- The mutable world threaded through a run: the journal filename fixed
at run-log initialization, the shell-invocation counter, the
enhanced-tooling invocation counter, git state, the edit-engine
filesystem, the journal writes performed so far (filename, snapshot),
and how many times `commit_and_push` was invoked. -/
structure World where
  filename : String
  shellCalls : Nat
  enhCalls : Nat
  git : GitState
  fs : FS
  journal : List (String × RunLog)
  commitPushCalls : Nat
deriving Repr, DecidableEq

/-- The external collaborators of one run. -/
structure Env where
  runId : String
  startTs : String
  endTs : String
  timeFirst : String
  git0 : GitState
  fs0 : FS
  useEnhanced : Bool
  chooseEoi : Nat → Except String (Option Eoi)
  planFor : Nat → Except String (List PlanStep)
  validationFor : Nat → ValidationResult
  semanticOk : Nat → Bool
  shellRun : Nat → String → CommandResult
  recover : String → CommandResult → Nat → String
  semanticPreview : String → String
  grepPreview : String → String
  rename : Nat → String → String → String → FS → Except String (Nat × FS)
  enhApply : Nat → List FileEdit → FS → Except String FS
  analysisInfo : Nat → Option String

/-- `ExecutiveWorker._write_partial_run_log`: dump the current snapshot
to the filename fixed at run start (the write always targets
`self._current_run_filename`). -/
def writePartialRunLog (w : World) (log : RunLog) : World :=
  { w with journal := w.journal ++ [(w.filename, log)] }

/-- One `self.shell.run(cmd)` call. -/
def shellRunW (env : Env) (w : World) (cmd : String) : CommandResult × World :=
  (env.shellRun w.shellCalls cmd, { w with shellCalls := w.shellCalls + 1 })

/-- `GitOps.status` through the git model: `git status --porcelain`
output is non-blank exactly when uncommitted changes exist. -/
def gitStatusW (w : World) : String :=
  if w.git.dirty then " M modified" else ""

/-- `GitOps.add_all`: staging; no observable at this abstraction. -/
def gitAddAllW (w : World) : World := w

/-- `GitOps.commit(msg)` through the git model: commits exactly when
uncommitted changes exist. -/
def gitCommitW (w : World) (msg : String) : String × World :=
  if w.git.dirty then
    ("[main] " ++ msg, { w with git := { dirty := false, commitLog := w.git.commitLog ++ [msg] } })
  else ("nothing to commit, working tree clean", w)

/-- `GitOps.push` output; pushing creates no local commits. -/
def gitPushW (_ : World) : String := ""

/-- Record a filesystem change made by an edit engine: the worktree
becomes dirty when the content actually changed. -/
def setFS (w : World) (fs' : FS) : World :=
  { w with fs := fs',
           git := if fs' = w.fs then w.git else { w.git with dirty := true } }

/-- `ExecutiveWorker._extract_commit_sha` (lines 729-730): always the
empty string. -/
def extractCommitSha (_ : String) : String := ""

/-- `ExecutiveWorker._is_fatal_error` (lines 702-705): nothing is fatal. -/
def isFatalError (_ : String) : Bool := false

/-- `ExecutiveWorker.commit_and_push` (lines 496-504): if `git status`
is non-blank, stage, commit, push and return the extracted sha,
otherwise return `""`. -/
def commitAndPush (t : Ticket) (w : World) : String × World :=
  let w := { w with commitPushCalls := w.commitPushCalls + 1 }
  let status := gitStatusW w
  if status.trim ≠ "" then
    let w := gitAddAllW w
    let p := gitCommitW w ("feat(" ++ t.ticket_id ++ "): progress")
    let _ := gitPushW p.2
    (extractCommitSha p.1, p.2)
  else ("", w)

/-- The `should_commit` gate of `execute_ticket` (lines 107-111), with
Python truthiness on the tri-state `compiled` and optional `tests`. -/
def shouldCommit (v : ValidationResult) (numResults : Nat) : Bool :=
  v.compiled.getD false
    && (match v.tests with | some t => t.passed | none => false)
    && decide (numResults ≥ 3)

/-- `ExecutiveWorker.check_ready_to_submit` (lines 732-753) with the
semantic evaluator's verdict supplied. -/
def checkReadyToSubmit (v : ValidationResult) (semanticOk : Bool) : Bool :=
  if v.compiled.getD false = false then false
  else if (match v.tests with | some t => !t.passed | none => false) then false
  else if !semanticOk then false
  else true

/-- `ExecutiveWorker.pick_eoi_optional` (lines 227-238): a pinned focus
target short-circuits the selector oracle. -/
def pickEoi (env : Env) (t : Ticket) (cycle : Nat) : Except String (Option Eoi) :=
  match t.eoi with
  | some e => .ok (some e)
  | none => env.chooseEoi cycle

/-- The edit-step argument normalization (lines 602-617): keep the edits
carrying all of `path`/`find`/`replace`; if none survive and the bag has
`path` and `content`, synthesize a single create/append edit. -/
def normalizeEdits (args : StepArgs) : List FileEdit :=
  let fromList := args.edits.filterMap (fun e =>
    match e.path, e.find, e.replace with
    | some p, some f, some r => some (FileEdit.mk p f r)
    | _, _, _ => none)
  if fromList.isEmpty then
    match args.path, args.content with
    | some p, some c => [FileEdit.mk p "" c]
    | _, _ => []
  else fromList

/-- The commit block closing the edit branch (lines 643-648):
`git add -A`, `git commit`, extract the sha and append it to the run
log's commit list when non-empty. -/
def editCommitBlock (t : Ticket) (args : StepArgs) (log : RunLog) (w : World) :
    RunLog × World :=
  let w := gitAddAllW w
  let msg := args.message.getD ("chore: apply edits for " ++ t.ticket_id)
  let p := gitCommitW w msg
  let sha := extractCommitSha p.1
  let log := if sha ≠ "" then { log with commits := log.commits ++ [sha] } else log
  (log, p.2)

/-- The `search` branch (lines 585-599): enhanced semantic search when
enabled and requested, else the basic grep; both synthesize a
zero-exit `CommandResult` and leave the world untouched. -/
def execSearchStep (env : Env) (args : StepArgs) : CommandResult :=
  let pattern := args.pattern.getD ".*"
  if env.useEnhanced ∧ args.semantic then
    let query := args.query.getD pattern
    ⟨"SEMANTIC_SEARCH " ++ query, 0, env.semanticPreview query, "", 0⟩
  else
    ⟨"SEARCH " ++ pattern, 0, env.grepPreview pattern, "", 0⟩

/-- The `edit` branch (lines 601-648): normalize the edit bag, apply via
the enhanced engine (with fallback to the basic engine inside an inner
`try`) or the basic engine, then stage/commit.  A raise from the basic
engine propagates with the rolled-back filesystem. -/
def execEditStep (env : Env) (t : Ticket) (args : StepArgs) (log : RunLog) (w : World) :
    Except (String × World) (CommandResult × RunLog × World) :=
  let fileEdits := normalizeEdits args
  if env.useEnhanced ∧ (args.edit_type = "ast" ∨ args.edit_type = "rename" ∨ args.edit_type = "refactor") then
    let enhanced : Except String (CommandResult × World) :=
      if args.edit_type = "rename" ∧ args.old_name.isSome ∧ args.new_name.isSome then
        let oldN := args.old_name.getD ""
        let newN := args.new_name.getD ""
        match env.rename w.enhCalls oldN newN (args.scope.getD "global") w.fs with
        | .ok (n, fs') =>
            .ok (⟨"RENAME_SYMBOL " ++ oldN ++ " -> " ++ newN, 0,
                  "Renamed in " ++ toString n ++ " files", "", 0⟩,
                 setFS { w with enhCalls := w.enhCalls + 1 } fs')
        | .error e => .error e
      else
        match env.enhApply w.enhCalls fileEdits w.fs with
        | .ok fs' =>
            .ok (⟨"enhanced_edit_engine.apply_edits", 0, "AST-aware edits applied", "", 0⟩,
                 setFS { w with enhCalls := w.enhCalls + 1 } fs')
        | .error e => .error e
    match enhanced with
    | .ok (res, w') =>
        let p := editCommitBlock t args log w'
        .ok (res, p.1, p.2)
    | .error e =>
        match applyEdits w.fs fileEdits with
        | .ok fs' =>
            let w' := setFS { w with enhCalls := w.enhCalls + 1 } fs'
            let p := editCommitBlock t args log w'
            .ok (⟨"edit_engine.apply_edits (fallback)", 0, "Fallback edit: " ++ e, "", 0⟩,
                 p.1, p.2)
        | .error pr =>
            .error (pr.1, setFS { w with enhCalls := w.enhCalls + 1 } pr.2)
  else
    match applyEdits w.fs fileEdits with
    | .ok fs' =>
        let w' := setFS w fs'
        let p := editCommitBlock t args log w'
        .ok (⟨"edit_engine.apply_edits", 0, "Basic edits applied", "", 0⟩, p.1, p.2)
    | .error pr => .error (pr.1, setFS w pr.2)

/-- The `shell` branch (lines 650-653): run with bounded recovery
(`max_attempts=5`), advancing the shell counter by the number of
invocations made. -/
def execShellStep (env : Env) (args : StepArgs) (w : World) : CommandResult × World :=
  let cmd := args.cmd.getD "echo noop"
  let p := executeShellWithRecovery (fun a c => env.shellRun (w.shellCalls + a) c)
            env.recover cmd 5
  (p.1, { w with shellCalls := w.shellCalls + p.2.length })

/-- The `git` branch (lines 655-661): push or status. -/
def execGitStep (args : StepArgs) (w : World) : CommandResult :=
  let action := args.action.getD "push"
  let out := if action = "push" then gitPushW w else gitStatusW w
  ⟨"git " ++ action, 0, out, "", 0⟩

/-- The `validate` branch (lines 663-679): run the check command; on
failure with enhanced mode, annotate with the error analysis unless the
analysis itself fails. -/
def execValidateStep (env : Env) (args : StepArgs) (w : World) : CommandResult × World :=
  let cmd := args.cmd.getD "true"
  let p := shellRunW env w cmd
  let res := p.1
  if res.exit_code ≠ 0 ∧ env.useEnhanced then
    match env.analysisInfo p.2.enhCalls with
    | some info =>
        (⟨"VALIDATE_WITH_ANALYSIS: " ++ cmd, res.exit_code, info, res.stderr, res.duration_ms⟩,
         { p.2 with enhCalls := p.2.enhCalls + 1 })
    | none => (res, { p.2 with enhCalls := p.2.enhCalls + 1 })
  else (res, p.2)

/-- One step of `_execute_plan_with_incremental_logging` (the dispatch
on `step.kind`, lines 585-681).  Returns `none` for an unrecognized kind
(the `else: continue`), `some result` for a recognized step, and
`.error` when the step body raises (only edit application raises in the
model), carrying the world at the raise point. -/
def execStep (env : Env) (t : Ticket) (step : PlanStep) (log : RunLog) (w : World) :
    Except (String × World) (Option CommandResult × RunLog × World) :=
  if step.kind = "search" then
    .ok (some (execSearchStep env step.args), log, w)
  else if step.kind = "edit" then
    match execEditStep env t step.args log w with
    | .ok (res, log', w') => .ok (some res, log', w')
    | .error x => .error x
  else if step.kind = "shell" then
    let p := execShellStep env step.args w
    .ok (some p.1, log, p.2)
  else if step.kind = "git" then
    .ok (some (execGitStep step.args w), log, w)
  else if step.kind = "validate" then
    let p := execValidateStep env step.args w
    .ok (some p.1, log, p.2)
  else
    .ok (none, log, w)

/-- The loop of `_execute_plan_with_incremental_logging` (lines
577-700): per step, on success append the result to both the local list
and the run log, bump `current_step` and write the journal; on a raise,
record a synthetic failing `CommandResult`, set `error` and
`status="failed"`, write the journal, and continue unless the error is
fatal (none is). -/
def execPlanLoop (env : Env) (t : Ticket) :
    List PlanStep → Nat → List CommandResult → RunLog → World →
    List CommandResult × RunLog × World
  | [], _, commands, log, w => (commands, log, w)
  | step :: rest, i, commands, log, w =>
      match execStep env t step log w with
      | .ok (none, log', w') => execPlanLoop env t rest (i + 1) commands log' w'
      | .ok (some res, log', w') =>
          let log'' := { log' with commands := log'.commands ++ [res], current_step := i + 1 }
          let w'' := writePartialRunLog w' log''
          execPlanLoop env t rest (i + 1) (commands ++ [res]) log'' w''
      | .error (e, w') =>
          let errResult : CommandResult := ⟨step.description, -1, "", e, 0⟩
          let log'' := { log with commands := log.commands ++ [errResult],
                                  error := some e, status := "failed" }
          let w'' := writePartialRunLog w' log''
          if isFatalError e then (commands ++ [errResult], log'', w'')
          else execPlanLoop env t rest (i + 1) (commands ++ [errResult]) log'' w''

/-- `ExecutiveWorker._execute_plan_with_incremental_logging`. -/
def executePlanWithIncrementalLogging (env : Env) (t : Ticket)
    (plan : List PlanStep) (log : RunLog) (w : World) :
    List CommandResult × RunLog × World :=
  execPlanLoop env t plan 0 [] log w

/-- The conditional-commit block of `execute_ticket` (lines 106-123):
when the substantial-progress gate passes, invoke `commit_and_push` and
append the returned sha (when non-empty) to the run log, journaling the
update. -/
def maybeCommit (t : Ticket) (v : ValidationResult) (numResults : Nat)
    (log : RunLog) (w : World) : RunLog × World :=
  if shouldCommit v numResults then
    let p := commitAndPush t w
    if p.1 ≠ "" then
      let log := { log with commits := log.commits ++ [p.1] }
      (log, writePartialRunLog p.2 log)
    else (log, p.2)
  else (log, w)

/-- One iteration of the `while` loop of `execute_ticket` (lines 70-131):
select focus, journal, plan, journal, execute the plan, validate,
journal, conditionally commit, and compute readiness. -/
def runCycle (env : Env) (t : Ticket) (cycle : Nat) (log : RunLog) (w : World) :
    Except (String × RunLog × World) (Bool × RunLog × World) :=
  match pickEoi env t cycle with
  | .error e => .error (e, log, w)
  | .ok eoi =>
    let log := { log with eoi := eoi }
    let w := writePartialRunLog w log
    match env.planFor cycle with
    | .error e => .error (e, log, w)
    | .ok plan =>
      let log := { log with plan_steps := plan.length }
      let w := writePartialRunLog w log
      let pe := executePlanWithIncrementalLogging env t plan log w
      let stepResults := pe.1
      let log := pe.2.1
      let w := pe.2.2
      let validation := env.validationFor cycle
      let log := { log with validation := some validation }
      let w := writePartialRunLog w log
      let mc := maybeCommit t validation stepResults.length log w
      let ready := checkReadyToSubmit validation (env.semanticOk cycle)
      .ok (ready, mc.1, mc.2)

/-- The `while not ready and cycle_count < max_cycles` loop, with the
remaining budget as structural fuel (`fuel = max_cycles - cycle_count`).
Returns the final cycle count, readiness, run log and world, or the
escaped exception with the state at the raise point. -/
def cycleLoop (env : Env) (t : Ticket) :
    Nat → Nat → Bool → RunLog → World →
    Except (String × RunLog × World) (Nat × Bool × RunLog × World)
  | 0, count, ready, log, w => .ok (count, ready, log, w)
  | fuel + 1, count, ready, log, w =>
      if ready then .ok (count, ready, log, w)
      else
        match runCycle env t (count + 1) log w with
        | .error x => .error x
        | .ok (ready', log', w') => cycleLoop env t fuel (count + 1) ready' log' w'

/-- `ExecutiveWorker._initialize_run_log` (lines 541-557), run-log part. -/
def initializeRunLog (env : Env) (t : Ticket) (dp : DeepPlan) : RunLog :=
  { run_id := env.runId, task_id := t.ticket_id, start_ts := env.startTs,
    status := "in_progress", deep_plan := some dp }

/-- The run filename fixed by `_initialize_run_log` (lines 551-555):
time-first prefix, ticket id, last dash-separated component of the run
id. -/
def mkRunFilename (env : Env) (t : Ticket) : String :=
  env.timeFirst ++ "-" ++ t.ticket_id ++ "-" ++ ((env.runId.splitOn "-").reverse.headD "") ++ ".json"

/-- The cycle budget (line 68): 100 for high/epic complexity, else 50. -/
def maxCyclesFor (dp : DeepPlan) : Nat :=
  if dp.estimated_complexity = "high" ∨ dp.estimated_complexity = "epic" then 100 else 50

/-- The world `execute_ticket` starts from, before the initial journal
write: the journal filename fixed by `_initialize_run_log`, fresh
counters, the initial git and filesystem state. -/
def initialWorld (env : Env) (t : Ticket) : World :=
  { filename := mkRunFilename env t, shellCalls := 0, enhCalls := 0,
    git := env.git0, fs := env.fs0, journal := [], commitPushCalls := 0 }

/-- `ExecutiveWorker.execute_ticket` (lines 53-168), after deep planning:
initialize the run log and journal file, run the cycle loop, finalize
the status (`failed_max_cycles` on budget exhaustion, else `completed`),
set the end timestamp, affected nodes and reflections, journal, and
return the run log; on an escaped exception, finalize with status
`CRASHED`, journal, and re-raise the same exception. -/
def executeTicket (env : Env) (t : Ticket) (dp : DeepPlan) :
    Except (String × World) (RunLog × World) :=
  let log := initializeRunLog env t dp
  let w := writePartialRunLog (initialWorld env t) log
  let maxCycles := maxCyclesFor dp
  match cycleLoop env t maxCycles 0 false log w with
  | .ok (count, ready, log, w) =>
      let log :=
        if maxCycles ≤ count ∧ ready = false then
          { log with status := "failed_max_cycles",
                     error := some ("Agent failed to complete ticket after " ++ toString maxCycles ++ " cycles") }
        else { log with status := "completed" }
      let log :=
        { log with
          end_ts := some env.endTs,
          affected_nodes := [⟨"node-" ++ t.ticket_id, "partial", 10, (log.commits, []), "initial pass"⟩],
          reflections := [("decision", "MVP cycle executed")] }
      let w := writePartialRunLog w log
      .ok (log, w)
  | .error (e, log, w) =>
      let log :=
        { log with
          status := "CRASHED",
          error := some ("Agent crashed with exception: " ++ e),
          end_ts := some env.endTs }
      let w := writePartialRunLog w log
      .error (e, w)

/-- The step kinds carrying a branch in the executor's dispatch;
anything else falls into `else: continue`. -/
def recognizedKind (k : String) : Bool :=
  k = "search" || k = "edit" || k = "shell" || k = "git" || k = "validate"

/-! ### Concrete environments for counterexamples and witnesses.
`envBase` is a deterministic instantiation of every collaborator; the
per-claim environments override the planning oracle, the validation
gate, or the initial filesystem. -/

/-- A deterministic collaborator environment: no pinned focus, empty
plans, passing validation, always-succeeding shell, basic tooling. -/
def envBase : Env :=
  { runId := "r-aaaa-bbbb-cccc", startTs := "T0", endTs := "T1",
    timeFirst := "120000-20260101",
    git0 := { dirty := false, commitLog := [] }, fs0 := [],
    useEnhanced := false,
    chooseEoi := fun _ => .ok none,
    planFor := fun _ => .ok [],
    validationFor := fun _ => { compiled := some true, tests := some ⟨true, "ok"⟩ },
    semanticOk := fun _ => true,
    shellRun := fun _ c => ⟨c, 0, "", "", 0⟩,
    recover := fun c _ _ => c,
    semanticPreview := fun _ => "",
    grepPreview := fun _ => "",
    rename := fun _ _ _ _ fs => .ok (0, fs),
    enhApply := fun _ _ fs => .ok fs,
    analysisInfo := fun _ => none }

/-- A sample ticket. -/
def sampleTicket : Ticket := { ticket_id := "T42", title := "t", description := "d" }

/-- A sample low-complexity deep plan (cycle budget 50). -/
def sampleDeepPlan : DeepPlan := { estimated_complexity := "low" }

/-- Environment whose single-cycle plan is one edit step creating a new
file; validation and the semantic check pass, so the run completes after
one cycle with exactly one (edit-step) git commit and one step result. -/
def envEditCommit : Env :=
  { envBase with
    planFor := fun _ => .ok [{ description := "create file", kind := "edit",
                               args := { path := some "new.txt", content := some "hi" } }] }

/-- Environment whose single-cycle plan is one edit step whose anchor
text is absent from the target file, so the step raises and is recorded
as a failure, while validation and the semantic check still pass. -/
def envFailedStep : Env :=
  { envBase with
    fs0 := [("a.txt", "hello")],
    planFor := fun _ => .ok [{ description := "bad edit", kind := "edit",
                               args := { edits := [{ path := some "a.txt", find := some "ZZZ",
                                                     replace := some "x" }] } }] }

/-- Environment whose planning oracle raises on the first cycle. -/
def envPlanRaises : Env :=
  { envBase with planFor := fun _ => .error "boom" }

/-- A single analysis as produced by `analyze_error` for a Python
`ModuleNotFoundError` (`_parse_missing_module`, lines 150-169). -/
def missingModuleAnalysis : ErrorAnalysis :=
  { error_type := "missing_dependency", severity := "medium",
    message := "Module \x27foo\x27 not found",
    suggested_fixes := ["Install the module: pip install foo"],
    context := { language := some "python", module_name := some "foo" } }

/-- The run-journal invariant: the world's target filename is `f` and
every journal write so far targeted `f`. -/
def JournalUses (f : String) (w : World) : Prop :=
  w.filename = f ∧ ∀ e ∈ w.journal, e.1 = f

/-! ## Theorems -/

/-! ### Shell recovery loop: helper lemma. -/

/-- Invariant of the retry loop: given at least one attempt, the loop
makes between 1 and `remaining` shell invocations, returns the last
invocation's result, and every invocation before the last exited
non-zero. -/
theorem runRecovery_spec (shell : Nat → String → CommandResult)
    (recover : String → CommandResult → Nat → String) :
    ∀ remaining attempt cmd lastResult, 1 ≤ remaining →
      (runRecovery shell recover remaining attempt cmd lastResult).2.length ≤ remaining ∧
      1 ≤ (runRecovery shell recover remaining attempt cmd lastResult).2.length ∧
      (runRecovery shell recover remaining attempt cmd lastResult).2.getLast?
        = some (runRecovery shell recover remaining attempt cmd lastResult).1 ∧
      ((runRecovery shell recover remaining attempt cmd lastResult).2.dropLast.all
        (fun r => r.exit_code != 0)) = true := by
  intro remaining
  induction remaining with
  | zero => intro attempt cmd lastResult h; omega
  | succ r ih =>
      intro attempt cmd lastResult _
      by_cases h0 : (shell attempt cmd).exit_code = 0
      · simp [runRecovery, h0]
      · by_cases hr : r = 0
        · simp [runRecovery, h0, hr]
        · have hr1 : 1 ≤ r := Nat.one_le_iff_ne_zero.mpr hr
          obtain ⟨hlen, hpos, hlast, hall⟩ := ih (attempt + 1)
            (recover cmd (shell attempt cmd) attempt) (some (shell attempt cmd)) hr1
          simp only [runRecovery, h0, if_false, hr, ite_false]
          refine ⟨by simpa using Nat.succ_le_succ hlen, by simp, ?_, ?_⟩
          · rcases hcons : (runRecovery shell recover r (attempt + 1)
              (recover cmd (shell attempt cmd) attempt) (some (shell attempt cmd))).2 with _ | ⟨y, ys⟩
            · rw [hcons] at hpos; simp at hpos
            · rw [hcons] at hlast
              simpa [hcons] using hlast
          · rcases hcons : (runRecovery shell recover r (attempt + 1)
              (recover cmd (shell attempt cmd) attempt) (some (shell attempt cmd))).2 with _ | ⟨y, ys⟩
            · rw [hcons] at hpos; simp at hpos
            · rw [hcons] at hall
              simp [hcons, List.dropLast_cons₂, h0, hall]

/-- C3: for every shell step executed with recovery at `max_attempts=5`,
the underlying shell command is invoked at least once and at most 5
times (the returned list is the invocation sequence); the returned
result is the last invocation's result, and every invocation before the
last exited non-zero — hence the first zero-exit attempt, if one occurs,
is the returned result, and otherwise the last failing attempt is
returned. -/
theorem shell_recovery_bounded_returns_first_success_or_last_failure
    (shell : Nat → String → CommandResult)
    (recover : String → CommandResult → Nat → String) (cmd : String) :
    (executeShellWithRecovery shell recover cmd 5).2.length ≤ 5 ∧
    1 ≤ (executeShellWithRecovery shell recover cmd 5).2.length ∧
    (executeShellWithRecovery shell recover cmd 5).2.getLast?
      = some (executeShellWithRecovery shell recover cmd 5).1 ∧
    ((executeShellWithRecovery shell recover cmd 5).2.dropLast.all
      (fun r => r.exit_code != 0)) = true :=
  runRecovery_spec shell recover 5 0 cmd none (by norm_num)

/-- C2 counterexample: with 11 requirements none of which mentions a
risky keyword and an empty risk list (≤ 3 risks), the classifier
returns `"high"`, not `"medium"` — the `> 10` requirement count alone
forces `"high"`, contrary to the claim's "high only if a keyword is
present, else medium". -/
theorem complexity_eleven_requirements_counterexample :
    classifyComplexity (List.replicate 11 "add a button") [] = "high" ∧
    ((List.replicate 11 "add a button" ++ ([] : List String)).any riskyKeyword) = false ∧
    ("high" : String) ≠ "medium" := by
  refine ⟨by decide, by decide, by decide⟩

/-- C2 amended: complexity classification is a deterministic function of
the requirement and risk lists; 16 requirements always yield `"epic"`,
and 11 requirements always yield `"high"` regardless of keyword
presence or risk count, because more than 10 requirements alone forces
`"high"` (and 11 is not more than 15). -/
theorem complexity_classification_amended (reqs risks : List String) :
    (reqs.length = 16 → classifyComplexity reqs risks = "epic") ∧
    (reqs.length = 11 → classifyComplexity reqs risks = "high") := by
  constructor <;> intro h <;> simp [classifyComplexity, h]

/-- Witness for the amended C2 theorem at concrete lists. -/
theorem complexity_classification_amended_witness :
    classifyComplexity (List.replicate 16 "r") [] = "epic" ∧
    classifyComplexity (List.replicate 11 "r") ["network risk"] = "high" :=
  ⟨(complexity_classification_amended (List.replicate 16 "r") []).1 (by simp),
   (complexity_classification_amended (List.replicate 11 "r") ["network risk"]).2 (by simp)⟩

/-- C4 failing input: the workspace holds `a.txt` with empty content and
`b.txt` with `"hello"`; edit #1 appends to `a.txt`, edit #2 references
anchor text absent from `b.txt`.  `apply_edits` raises as expected, but
rollback treats the empty-string backup of the pre-existing empty file
`a.txt` as a new-file marker and deletes it: afterwards `a.txt` no
longer exists, so the workspace is not restored byte-for-byte. -/
theorem edit_rollback_deletes_preexisting_empty_file :
    applyEdits [("a.txt", ""), ("b.txt", "hello")]
        [⟨"a.txt", "", "x"⟩, ⟨"b.txt", "ZZZ", "w"⟩]
      = .error ("Context \x27ZZZ\x27 not found in b.txt", [("b.txt", "hello")]) ∧
    fsGet [("a.txt", ""), ("b.txt", "hello")] "a.txt" = some "" ∧
    fsGet [("b.txt", "hello")] "a.txt" = none :=
  ⟨rfl, rfl, rfl⟩

/-! ### Error-recovery auto-execution: helper lemmas. -/

/-- Elements produced by the inner per-command fold of `auto_recover`
are either from the accumulator or the action being executed. -/
theorem autoRecoverExec_inner_mem (execOk : String → Bool) (action : RecoveryAction) :
    ∀ (cmds : List String) (acc : List RecoveryAction) (x : RecoveryAction),
      x ∈ cmds.foldl (fun ex cmd => if execOk cmd then ex ++ [action] else ex) acc →
      x ∈ acc ∨ x = action := by
  intro cmds
  induction cmds with
  | nil => intro acc x hx; exact Or.inl hx
  | cons c cs ih =>
      intro acc x hx
      simp only [List.foldl_cons] at hx
      rcases ih _ x hx with h | h
      · by_cases hc : execOk c
        · rw [if_pos hc] at h
          rcases List.mem_append.mp h with h' | h'
          · exact Or.inl h'
          · simp only [List.mem_singleton] at h'
            exact Or.inr h'
        · rw [if_neg hc] at h
          exact Or.inl h
      · exact Or.inr h

/-- Elements produced by the outer fold of `auto_recover` are either
from the accumulator, or suggested actions passing the
confidence-and-type guard. -/
theorem autoRecoverExec_outer_mem (execOk : String → Bool) :
    ∀ (actions acc : List RecoveryAction) (x : RecoveryAction),
      x ∈ actions.foldl
        (fun executed action =>
          if 8/10 ≤ action.confidence ∧ action.action_type ∈ actionableTypes then
            action.commands.foldl
              (fun ex cmd => if execOk cmd then ex ++ [action] else ex) executed
          else executed)
        acc →
      x ∈ acc ∨ (x ∈ actions ∧ 8/10 ≤ x.confidence ∧ x.action_type ∈ actionableTypes) := by
  intro actions
  induction actions with
  | nil => intro acc x hx; exact Or.inl hx
  | cons a as ih =>
      intro acc x hx
      simp only [List.foldl_cons] at hx
      rcases ih _ x hx with h | h
      · by_cases hg : 8/10 ≤ a.confidence ∧ a.action_type ∈ actionableTypes
        · rw [if_pos hg] at h
          rcases autoRecoverExec_inner_mem execOk a a.commands acc x h with h' | h'
          · exact Or.inl h'
          · rw [h']
            exact Or.inr ⟨List.mem_cons_self a as, hg.1, hg.2⟩
        · rw [if_neg hg] at h
          exact Or.inl h
      · exact Or.inr ⟨List.mem_cons_of_mem a h.1, h.2.1, h.2.2⟩

/-- Every action in the executed list of `autoRecoverExec` passes the
guard and is one of the input actions. -/
theorem autoRecoverExec_qualifies (execOk : String → Bool)
    (actions : List RecoveryAction) (x : RecoveryAction)
    (hx : x ∈ autoRecoverExec execOk actions) :
    x ∈ actions ∧ 8/10 ≤ x.confidence ∧ x.action_type ∈ actionableTypes := by
  unfold autoRecoverExec at hx
  rcases autoRecoverExec_outer_mem execOk actions [] x hx with h | h
  · simp at h
  · exact h

/-- C9: an action returned (hence executed) by `auto_recover` has
confidence at least 0.8, has its action type in the actionable set
(`install_dependency` only), and is one of the suggested recovery
actions.  Contrapositively, any suggested action with lower confidence
or a different action type is never in the executed list: it remains a
suggestion only. -/
theorem auto_recover_executes_only_high_confidence_actionable
    (execOk : String → Bool) (analyze : String → String → List ErrorAnalysis)
    (commandResult : CommandResult) (a : RecoveryAction)
    (h : a ∈ autoRecover execOk analyze commandResult) :
    8/10 ≤ a.confidence ∧ a.action_type ∈ actionableTypes ∧
    a ∈ suggestRecoveryActions (analyze commandResult.stderr commandResult.cmd) := by
  unfold autoRecover at h
  by_cases h0 : commandResult.exit_code = 0
  · rw [if_pos h0] at h
    simp at h
  · rw [if_neg h0] at h
    obtain ⟨hmem, hconf, htype⟩ := autoRecoverExec_qualifies execOk _ a h
    exact ⟨hconf, htype, hmem⟩

/-- Witness for C9: a failing `python` command whose analysis reports a
missing Python module yields the `pip install foo` action, which indeed
has confidence 0.8, actionable type, and is among the suggestions. -/
theorem auto_recover_executes_only_high_confidence_actionable_witness :
    8/10 ≤ (RecoveryAction.mk "install_dependency" "Install Python module foo"
              ["pip install foo"] [] (8/10)).confidence ∧
    (RecoveryAction.mk "install_dependency" "Install Python module foo"
              ["pip install foo"] [] (8/10)).action_type ∈ actionableTypes ∧
    (RecoveryAction.mk "install_dependency" "Install Python module foo"
              ["pip install foo"] [] (8/10))
      ∈ suggestRecoveryActions ((fun _ _ => [missingModuleAnalysis]) "err" "python x.py") :=
  auto_recover_executes_only_high_confidence_actionable
    (fun _ => true) (fun _ _ => [missingModuleAnalysis])
    ⟨"python x.py", 1, "", "err", 1⟩ _
    (by simp [autoRecover, autoRecoverExec, suggestRecoveryActions, recoveryOf,
              missingModuleAnalysis, actionableTypes])
/-! ### Controller invariants: preservation lemmas for each state
operation, then for the plan executor, the cycle, and the loop. -/

/-- A journal write preserves the journal invariant. -/
theorem writePartialRunLog_journalUses {f : String} {w : World} (log : RunLog)
    (h : JournalUses f w) : JournalUses f (writePartialRunLog w log) := by
  refine ⟨h.1, ?_⟩
  intro e he
  simp only [writePartialRunLog, List.mem_append, List.mem_singleton] at he
  rcases he with h' | h'
  · exact h.2 e h'
  · rw [h']
    exact h.1

/-- `writePartialRunLog` leaves the filename unchanged. -/
theorem writePartialRunLog_filename (w : World) (log : RunLog) :
    (writePartialRunLog w log).filename = w.filename := rfl

/-- `gitCommitW` leaves the journal unchanged. -/
theorem gitCommitW_journal (w : World) (msg : String) :
    (gitCommitW w msg).2.journal = w.journal := by
  unfold gitCommitW
  split <;> rfl

/-- `gitCommitW` leaves the filename unchanged. -/
theorem gitCommitW_filename (w : World) (msg : String) :
    (gitCommitW w msg).2.filename = w.filename := by
  unfold gitCommitW
  split <;> rfl

/-- `gitCommitW` leaves the `commit_and_push` counter unchanged. -/
theorem gitCommitW_commitPushCalls (w : World) (msg : String) :
    (gitCommitW w msg).2.commitPushCalls = w.commitPushCalls := by
  unfold gitCommitW
  split <;> rfl

/-- `setFS` leaves the journal unchanged. -/
theorem setFS_journal (w : World) (fs' : FS) : (setFS w fs').journal = w.journal := rfl

/-- `setFS` leaves the filename unchanged. -/
theorem setFS_filename (w : World) (fs' : FS) : (setFS w fs').filename = w.filename := rfl

/-- The extracted sha is always empty, so the edit-branch commit block
never modifies the run log. -/
theorem editCommitBlock_fst (t : Ticket) (args : StepArgs) (log : RunLog) (w : World) :
    (editCommitBlock t args log w).1 = log := by
  simp [editCommitBlock, extractCommitSha, gitAddAllW]

/-- The edit-branch commit block leaves the journal unchanged. -/
theorem editCommitBlock_journal (t : Ticket) (args : StepArgs) (log : RunLog) (w : World) :
    (editCommitBlock t args log w).2.journal = w.journal := by
  unfold editCommitBlock gitAddAllW
  exact gitCommitW_journal ..

/-- The edit-branch commit block leaves the filename unchanged. -/
theorem editCommitBlock_filename (t : Ticket) (args : StepArgs) (log : RunLog) (w : World) :
    (editCommitBlock t args log w).2.filename = w.filename := by
  unfold editCommitBlock gitAddAllW
  exact gitCommitW_filename ..

/-- The edit step never modifies the run log (the sha is always empty)
and never touches the journal, in both its success and raise outcomes. -/
theorem execEditStep_spec (env : Env) (t : Ticket) (args : StepArgs)
    (log : RunLog) (w : World) :
    match execEditStep env t args log w with
    | .ok (_, log', w') => log' = log ∧ w'.journal = w.journal ∧ w'.filename = w.filename
    | .error (_, w') => w'.journal = w.journal ∧ w'.filename = w.filename := by
  simp only [execEditStep]
  by_cases h1 : env.useEnhanced = true ∧
      (args.edit_type = "ast" ∨ args.edit_type = "rename" ∨ args.edit_type = "refactor")
  · rw [if_pos h1]
    by_cases h2 : args.edit_type = "rename" ∧ args.old_name.isSome = true ∧
        args.new_name.isSome = true
    · rw [if_pos h2]
      rcases hr : env.rename w.enhCalls (args.old_name.getD "") (args.new_name.getD "")
          (args.scope.getD "global") w.fs with e | ⟨n, fs'⟩
      · rcases ha : applyEdits w.fs (normalizeEdits args) with pr | fs''
        · exact ⟨setFS_journal .., setFS_filename ..⟩
        · exact ⟨editCommitBlock_fst ..,
                 (editCommitBlock_journal ..).trans (setFS_journal ..),
                 (editCommitBlock_filename ..).trans (setFS_filename ..)⟩
      · exact ⟨editCommitBlock_fst ..,
               (editCommitBlock_journal ..).trans (setFS_journal ..),
               (editCommitBlock_filename ..).trans (setFS_filename ..)⟩
    · rw [if_neg h2]
      rcases he : env.enhApply w.enhCalls (normalizeEdits args) w.fs with e | fs'
      · rcases ha : applyEdits w.fs (normalizeEdits args) with pr | fs''
        · exact ⟨setFS_journal .., setFS_filename ..⟩
        · exact ⟨editCommitBlock_fst ..,
                 (editCommitBlock_journal ..).trans (setFS_journal ..),
                 (editCommitBlock_filename ..).trans (setFS_filename ..)⟩
      · exact ⟨editCommitBlock_fst ..,
               (editCommitBlock_journal ..).trans (setFS_journal ..),
               (editCommitBlock_filename ..).trans (setFS_filename ..)⟩
  · rw [if_neg h1]
    rcases ha : applyEdits w.fs (normalizeEdits args) with pr | fs'
    · exact ⟨setFS_journal .., setFS_filename ..⟩
    · exact ⟨editCommitBlock_fst ..,
             (editCommitBlock_journal ..).trans (setFS_journal ..),
             (editCommitBlock_filename ..).trans (setFS_filename ..)⟩

/-- The shell step only advances the shell counter. -/
theorem execShellStep_journal (env : Env) (args : StepArgs) (w : World) :
    (execShellStep env args w).2.journal = w.journal := rfl

/-- The shell step leaves the filename unchanged. -/
theorem execShellStep_filename (env : Env) (args : StepArgs) (w : World) :
    (execShellStep env args w).2.filename = w.filename := rfl

/-- The validate step only advances the shell and analysis counters. -/
theorem execValidateStep_journal (env : Env) (args : StepArgs) (w : World) :
    (execValidateStep env args w).2.journal = w.journal := by
  simp only [execValidateStep, shellRunW]
  split
  · split <;> rfl
  · rfl

/-- The validate step leaves the filename unchanged. -/
theorem execValidateStep_filename (env : Env) (args : StepArgs) (w : World) :
    (execValidateStep env args w).2.filename = w.filename := by
  simp only [execValidateStep, shellRunW]
  split
  · split <;> rfl
  · rfl

/-- One dispatch of the plan executor: the run log is returned
unchanged, the journal and filename are untouched, the step yields no
result exactly when its kind is unrecognized, and a raise can only come
from a recognized kind. -/
theorem execStep_spec (env : Env) (t : Ticket) (step : PlanStep)
    (log : RunLog) (w : World) :
    match execStep env t step log w with
    | .ok (r, log', w') => log' = log ∧ w'.journal = w.journal ∧ w'.filename = w.filename ∧
        (r = none ↔ recognizedKind step.kind = false)
    | .error (_, w') => w'.journal = w.journal ∧ w'.filename = w.filename ∧
        recognizedKind step.kind = true := by
  unfold execStep
  by_cases hs : step.kind = "search"
  · rw [if_pos hs]
    simp [recognizedKind, hs]
  · rw [if_neg hs]
    by_cases he : step.kind = "edit"
    · rw [if_pos he]
      have hd := execEditStep_spec env t step.args log w
      rcases hE : execEditStep env t step.args log w with x | ⟨res, log', w'⟩ <;> rw [hE] at hd
      · exact ⟨hd.1, hd.2, by simp [recognizedKind, he]⟩
      · exact ⟨hd.1, hd.2.1, hd.2.2, by simp [recognizedKind, he]⟩
    · rw [if_neg he]
      by_cases hsh : step.kind = "shell"
      · rw [if_pos hsh]
        exact ⟨rfl, execShellStep_journal .., execShellStep_filename ..,
               by simp [recognizedKind, hsh]⟩
      · rw [if_neg hsh]
        by_cases hg : step.kind = "git"
        · rw [if_pos hg]
          simp [recognizedKind, hg]
        · rw [if_neg hg]
          by_cases hv : step.kind = "validate"
          · rw [if_pos hv]
            exact ⟨rfl, execValidateStep_journal .., execValidateStep_filename ..,
                   by simp [recognizedKind, hv]⟩
          · rw [if_neg hv]
            simp [recognizedKind, hs, he, hsh, hg, hv]

/-- Transport the journal invariant along a world with the same journal
and filename. -/
theorem JournalUses_of_eq {f : String} {w w' : World} (hj : w'.journal = w.journal)
    (hf : w'.filename = w.filename) (h : JournalUses f w) : JournalUses f w' := by
  refine ⟨hf.trans h.1, ?_⟩
  intro e he
  exact h.2 e (hj ▸ he)

/-- The plan executor preserves the journal invariant: every journal
write it performs targets the fixed filename. -/
theorem execPlanLoop_journalUses (env : Env) (t : Ticket) :
    ∀ (plan : List PlanStep) (i : Nat) (cmds : List CommandResult)
      (log : RunLog) (w : World) (f : String), JournalUses f w →
      JournalUses f (execPlanLoop env t plan i cmds log w).2.2 := by
  intro plan
  induction plan with
  | nil => intro i cmds log w f h; exact h
  | cons step rest ih =>
      intro i cmds log w f h
      have hs := execStep_spec env t step log w
      rcases hE : execStep env t step log w with ⟨e, w'⟩ | ⟨r, log', w'⟩ <;> rw [hE] at hs
      · simp only [execPlanLoop, hE, isFatalError, Bool.false_eq_true, if_false]
        exact ih _ _ _ _ f
          (writePartialRunLog_journalUses _ (JournalUses_of_eq hs.1 hs.2.1 h))
      · rcases r with _ | res
        · simp only [execPlanLoop, hE]
          exact ih _ _ _ _ f (JournalUses_of_eq hs.2.1 hs.2.2.1 h)
        · simp only [execPlanLoop, hE]
          exact ih _ _ _ _ f
            (writePartialRunLog_journalUses _ (JournalUses_of_eq hs.2.1 hs.2.2.1 h))

/-- The plan executor never touches the run log's commit list (the
extracted sha is always empty). -/
theorem execPlanLoop_commits (env : Env) (t : Ticket) :
    ∀ (plan : List PlanStep) (i : Nat) (cmds : List CommandResult)
      (log : RunLog) (w : World),
      (execPlanLoop env t plan i cmds log w).2.1.commits = log.commits := by
  intro plan
  induction plan with
  | nil => intro i cmds log w; rfl
  | cons step rest ih =>
      intro i cmds log w
      have hs := execStep_spec env t step log w
      rcases hE : execStep env t step log w with ⟨e, w'⟩ | ⟨r, log', w'⟩ <;> rw [hE] at hs
      · simp only [execPlanLoop, hE, isFatalError, Bool.false_eq_true, if_false]
        exact ih ..
      · rcases r with _ | res
        · simp only [execPlanLoop, hE]
          rw [ih .., hs.1]
        · simp only [execPlanLoop, hE]
          rw [ih .., hs.1]

/-- The plan executor produces exactly one `CommandResult` per
recognized step (also on a per-step raise), appends them all to the run
log's command history, and produces none for unrecognized kinds. -/
theorem execPlanLoop_shape (env : Env) (t : Ticket) :
    ∀ (plan : List PlanStep) (i : Nat) (cmds : List CommandResult)
      (log : RunLog) (w : World) (base : List CommandResult),
      log.commands = base ++ cmds →
      (execPlanLoop env t plan i cmds log w).1.length
          = cmds.length + plan.countP (fun s => recognizedKind s.kind) ∧
      (execPlanLoop env t plan i cmds log w).2.1.commands
          = base ++ (execPlanLoop env t plan i cmds log w).1 := by
  intro plan
  induction plan with
  | nil =>
      intro i cmds log w base hb
      exact ⟨by simp [execPlanLoop], by simpa [execPlanLoop] using hb⟩
  | cons step rest ih =>
      intro i cmds log w base hb
      have hs := execStep_spec env t step log w
      rcases hE : execStep env t step log w with ⟨e, w'⟩ | ⟨r, log', w'⟩ <;> rw [hE] at hs
      · have hrec : recognizedKind step.kind = true := hs.2.2
        simp only [execPlanLoop, hE, isFatalError, Bool.false_eq_true, if_false]
        have hb' : ({ log with
            commands := log.commands ++ [⟨step.description, -1, "", e, 0⟩],
            error := some e, status := "failed" } : RunLog).commands
            = base ++ (cmds ++ [⟨step.description, -1, "", e, 0⟩]) := by
          simp [hb]
        obtain ⟨hl, hc⟩ := ih (i + 1) (cmds ++ [⟨step.description, -1, "", e, 0⟩]) _ _ base hb'
        refine ⟨?_, hc⟩
        rw [hl]
        simp [List.countP_cons, hrec]
        omega
      · rcases r with _ | res
        · have hrec : recognizedKind step.kind = false := hs.2.2.2.mp rfl
          simp only [execPlanLoop, hE]
          have hb' : log'.commands = base ++ cmds := by rw [hs.1]; exact hb
          obtain ⟨hl, hc⟩ := ih (i + 1) cmds log' w' base hb'
          refine ⟨?_, hc⟩
          rw [hl]
          simp [List.countP_cons, hrec]
        · have hrec : recognizedKind step.kind = true := by
            rcases h' : recognizedKind step.kind
            · exact absurd (hs.2.2.2.mpr h') (by simp)
            · rfl
          simp only [execPlanLoop, hE]
          have hb' : ({ log' with
              commands := log'.commands ++ [res],
              current_step := i + 1 } : RunLog).commands
              = base ++ (cmds ++ [res]) := by
            simp [hs.1, hb]
          obtain ⟨hl, hc⟩ := ih (i + 1) (cmds ++ [res]) _ _ base hb'
          refine ⟨?_, hc⟩
          rw [hl]
          simp [List.countP_cons, hrec]
          omega

/-- `commit_and_push` always returns the empty sha, because
`_extract_commit_sha` is constantly empty. -/
theorem commitAndPush_sha (t : Ticket) (w : World) : (commitAndPush t w).1 = "" := by
  simp only [commitAndPush, gitAddAllW]
  split
  · rfl
  · rfl

/-- `commit_and_push` leaves the journal unchanged. -/
theorem commitAndPush_journal (t : Ticket) (w : World) :
    (commitAndPush t w).2.journal = w.journal := by
  simp only [commitAndPush, gitAddAllW]
  split
  · exact gitCommitW_journal ..
  · rfl

/-- `commit_and_push` leaves the filename unchanged. -/
theorem commitAndPush_filename (t : Ticket) (w : World) :
    (commitAndPush t w).2.filename = w.filename := by
  simp only [commitAndPush, gitAddAllW]
  split
  · exact gitCommitW_filename ..
  · rfl

/-- `commit_and_push` increments its invocation counter exactly once. -/
theorem commitAndPush_counter (t : Ticket) (w : World) :
    (commitAndPush t w).2.commitPushCalls = w.commitPushCalls + 1 := by
  simp only [commitAndPush, gitAddAllW]
  split
  · exact gitCommitW_commitPushCalls ..
  · rfl

/-- The conditional-commit block never modifies the run log (the sha is
always empty), never touches the journal or filename, and invokes
`commit_and_push` exactly when the substantial-progress gate passes. -/
theorem maybeCommit_spec (t : Ticket) (v : ValidationResult) (numResults : Nat)
    (log : RunLog) (w : World) :
    (maybeCommit t v numResults log w).1 = log ∧
    (maybeCommit t v numResults log w).2.journal = w.journal ∧
    (maybeCommit t v numResults log w).2.filename = w.filename ∧
    (maybeCommit t v numResults log w).2.commitPushCalls
      = w.commitPushCalls + (if shouldCommit v numResults then 1 else 0) := by
  simp only [maybeCommit]
  by_cases hg : shouldCommit v numResults
  · rw [if_pos hg, if_pos hg]
    rw [if_neg (by simp [commitAndPush_sha])]
    exact ⟨rfl, commitAndPush_journal .., commitAndPush_filename .., commitAndPush_counter ..⟩
  · rw [if_neg hg, if_neg hg]
    exact ⟨rfl, rfl, rfl, by simp⟩

/-- One cycle preserves the run log's commit list and the journal
invariant, in both its normal and raising outcomes. -/
theorem runCycle_spec (env : Env) (t : Ticket) (cycle : Nat) (log : RunLog) (w : World) :
    match runCycle env t cycle log w with
    | .ok (_, log', w') => log'.commits = log.commits ∧
        ∀ f, JournalUses f w → JournalUses f w'
    | .error (_, _, w') => ∀ f, JournalUses f w → JournalUses f w' := by
  unfold runCycle
  rcases hp : pickEoi env t cycle with e | eoi
  · exact fun f h => h
  · rcases hpl : env.planFor cycle with e | plan
    · simp only [executePlanWithIncrementalLogging]
      exact fun f h => writePartialRunLog_journalUses _ h
    · simp only [executePlanWithIncrementalLogging]
      constructor
      · rw [(maybeCommit_spec ..).1]
        exact execPlanLoop_commits ..
      · intro f h
        refine JournalUses_of_eq (maybeCommit_spec ..).2.1 (maybeCommit_spec ..).2.2.1 ?_
        exact writePartialRunLog_journalUses _
          (execPlanLoop_journalUses env t plan 0 [] _ _ f
            (writePartialRunLog_journalUses _ (writePartialRunLog_journalUses _ h)))

/-- The cycle loop preserves the run log's commit list and the journal
invariant. -/
theorem cycleLoop_spec (env : Env) (t : Ticket) :
    ∀ (fuel count : Nat) (ready : Bool) (log : RunLog) (w : World),
      match cycleLoop env t fuel count ready log w with
      | .ok (_, _, log', w') => log'.commits = log.commits ∧
          ∀ f, JournalUses f w → JournalUses f w'
      | .error (_, _, w') => ∀ f, JournalUses f w → JournalUses f w' := by
  intro fuel
  induction fuel with
  | zero => intro count ready log w; exact ⟨rfl, fun f h => h⟩
  | succ n ih =>
      intro count ready log w
      by_cases hready : ready = true
      · have hstep : cycleLoop env t (n + 1) count ready log w = .ok (count, ready, log, w) := by
          simp [cycleLoop, hready]
        rw [hstep]
        exact ⟨rfl, fun f h => h⟩
      · have hr' : ready = false := by simpa using hready
        subst hr'
        have hc := runCycle_spec env t (count + 1) log w
        rcases hC : runCycle env t (count + 1) log w with ⟨e, log', w'⟩ | ⟨ready', log', w'⟩ <;>
          rw [hC] at hc
        · have hstep : cycleLoop env t (n + 1) count false log w = .error (e, log', w') := by
            simp [cycleLoop, hC]
          rw [hstep]
          exact hc
        · have hstep : cycleLoop env t (n + 1) count false log w
              = cycleLoop env t n (count + 1) ready' log' w' := by
            simp [cycleLoop, hC]
          rw [hstep]
          have hrest := ih (count + 1) ready' log' w'
          rcases hL : cycleLoop env t n (count + 1) ready' log' w' with ⟨e2, log'', w''⟩ |
              ⟨count'', ready'', log'', w''⟩ <;> rw [hL] at hrest
          · exact fun f h => hrest f (hc.2 f h)
          · exact ⟨hrest.1.trans hc.1, fun f h => hrest.2 f (hc.2 f h)⟩

/-- C10: for every run of `execute_ticket` that returns normally, the
returned run log's commit list is empty: `_extract_commit_sha` is
constantly `""`, and both sha-appending sites (the edit-step path and
the `commit_and_push` path) append only a non-empty sha. -/
theorem returned_runlog_commits_empty (env : Env) (t : Ticket) (dp : DeepPlan) :
    match executeTicket env t dp with
    | .ok (log, _) => log.commits = []
    | .error _ => True := by
  simp only [executeTicket]
  have hc := cycleLoop_spec env t (maxCyclesFor dp) 0 false (initializeRunLog env t dp)
      (writePartialRunLog (initialWorld env t) (initializeRunLog env t dp))
  rcases hL : cycleLoop env t (maxCyclesFor dp) 0 false (initializeRunLog env t dp)
      (writePartialRunLog (initialWorld env t) (initializeRunLog env t dp)) with
    ⟨e, log', w'⟩ | ⟨count, ready, log', w'⟩ <;> rw [hL] at hc <;> simp only [hL]
  have h0 : log'.commits = [] := hc.1
  split <;> simpa using h0

/-- Bridge the journal invariant to its executable form. -/
theorem journalUses_all {f : String} {w : World} (h : JournalUses f w) :
    w.filename = f ∧ ((w.journal.map Prod.fst).all (fun s => s = f)) := by
  refine ⟨h.1, ?_⟩
  rw [List.all_eq_true]
  intro s hs
  rw [List.mem_map] at hs
  obtain ⟨e, he, rfl⟩ := hs
  simpa using h.2 e he

/-- C5: within one run of `execute_ticket`, the journal filename is the
one fixed at run-log initialization and never changes, and every journal
write targets exactly that filename — whether the run returns normally
or crashes. -/
theorem journal_filename_fixed_across_run (env : Env) (t : Ticket) (dp : DeepPlan) :
    match executeTicket env t dp with
    | .ok (_, w) => w.filename = mkRunFilename env t ∧
        ((w.journal.map Prod.fst).all (fun s => s = mkRunFilename env t))
    | .error (_, w) => w.filename = mkRunFilename env t ∧
        ((w.journal.map Prod.fst).all (fun s => s = mkRunFilename env t)) := by
  have hinit : JournalUses (mkRunFilename env t)
      (writePartialRunLog (initialWorld env t) (initializeRunLog env t dp)) :=
    writePartialRunLog_journalUses _ ⟨rfl, by intro e he; simp [initialWorld] at he⟩
  simp only [executeTicket]
  have hc := cycleLoop_spec env t (maxCyclesFor dp) 0 false (initializeRunLog env t dp)
      (writePartialRunLog (initialWorld env t) (initializeRunLog env t dp))
  rcases hL : cycleLoop env t (maxCyclesFor dp) 0 false (initializeRunLog env t dp)
      (writePartialRunLog (initialWorld env t) (initializeRunLog env t dp)) with
    ⟨e, log', w'⟩ | ⟨count, ready, log', w'⟩ <;> rw [hL] at hc <;> simp only [hL]
  · exact journalUses_all (writePartialRunLog_journalUses _ (hc _ hinit))
  · exact journalUses_all (writePartialRunLog_journalUses _ (hc.2 _ hinit))

/-- C6: if an exception escapes the main loop of `execute_ticket`, the
run log's status is set to `CRASHED`, its error text records the
exception, its end timestamp is set, the journal is written one final
time with exactly this snapshot, and the very exception raised by the
loop is the one propagated to the caller. -/
theorem crash_finalizes_journal_and_reraises (env : Env) (t : Ticket) (dp : DeepPlan) :
    match executeTicket env t dp with
    | .ok _ => True
    | .error (e, w) =>
        ∃ log, w.journal.getLast? = some (w.filename, log) ∧
          log.status = "CRASHED" ∧
          log.error = some ("Agent crashed with exception: " ++ e) ∧
          log.end_ts = some env.endTs ∧
          ∃ logAt wAt, cycleLoop env t (maxCyclesFor dp) 0 false
              (initializeRunLog env t dp)
              (writePartialRunLog (initialWorld env t) (initializeRunLog env t dp))
            = .error (e, logAt, wAt) := by
  simp only [executeTicket]
  rcases hL : cycleLoop env t (maxCyclesFor dp) 0 false (initializeRunLog env t dp)
      (writePartialRunLog (initialWorld env t) (initializeRunLog env t dp)) with
    ⟨e, log', w'⟩ | ⟨count, ready, log', w'⟩ <;> simp only [hL]
  exact ⟨{ log' with
      status := "CRASHED",
      error := some ("Agent crashed with exception: " ++ e),
      end_ts := some env.endTs },
    by simp [writePartialRunLog, List.getLast?_concat], rfl, rfl, rfl, log', w', rfl⟩

/-- C7 amended: the status assigned at loop exit is exactly one of the
terminal values — `completed` or `failed_max_cycles` on normal return,
`CRASHED` on a crash — and it is the status of the run's last journal
write.  (The original claim's "at most one status change" fails: a
mid-run step exception sets status `failed`, later overwritten by the
final terminal status; see the counterexample.) -/
theorem final_status_terminal_and_last_written (env : Env) (t : Ticket) (dp : DeepPlan) :
    match executeTicket env t dp with
    | .ok (log, w) => (log.status = "completed" ∨ log.status = "failed_max_cycles") ∧
        w.journal.getLast? = some (w.filename, log)
    | .error (_, w) => ∃ log, w.journal.getLast? = some (w.filename, log) ∧
        log.status = "CRASHED" := by
  simp only [executeTicket]
  rcases hL : cycleLoop env t (maxCyclesFor dp) 0 false (initializeRunLog env t dp)
      (writePartialRunLog (initialWorld env t) (initializeRunLog env t dp)) with
    ⟨e, log', w'⟩ | ⟨count, ready, log', w'⟩ <;> simp only [hL]
  · exact ⟨{ log' with
        status := "CRASHED",
        error := some ("Agent crashed with exception: " ++ e),
        end_ts := some env.endTs },
      by simp [writePartialRunLog, List.getLast?_concat], rfl⟩
  · constructor
    · split
      · exact Or.inr rfl
      · exact Or.inl rfl
    · simp [writePartialRunLog, List.getLast?_concat]

/-- C8 amended: the plan executor produces exactly one `CommandResult`
per recognized step — including per-step raises, recorded as a failing
result — and appends exactly those results to the run log's command
history; steps with an unrecognized kind are skipped without error and
produce no `CommandResult` at all. -/
theorem plan_executor_one_result_per_recognized_step (env : Env) (t : Ticket)
    (plan : List PlanStep) (log : RunLog) (w : World) :
    (executePlanWithIncrementalLogging env t plan log w).1.length
        = plan.countP (fun s => recognizedKind s.kind) ∧
    (executePlanWithIncrementalLogging env t plan log w).2.1.commands
        = log.commands ++ (executePlanWithIncrementalLogging env t plan log w).1 := by
  have h := execPlanLoop_shape env t plan 0 [] log w log.commands (by simp)
  simpa [executePlanWithIncrementalLogging] using h

/-- C8 counterexample: a plan consisting of one step with the
unrecognized kind `"frobnicate"` is consumed without error but produces
no `CommandResult`: the executor returns an empty result list and
leaves the run log and world untouched, contradicting "every consumed
step produces a CommandResult that is appended". -/
theorem unrecognized_step_yields_no_command_result :
    executePlanWithIncrementalLogging envBase sampleTicket
        [{ description := "mystery step", kind := "frobnicate" }]
        (initializeRunLog envBase sampleTicket sampleDeepPlan)
        (initialWorld envBase sampleTicket)
      = ([], initializeRunLog envBase sampleTicket sampleDeepPlan,
         initialWorld envBase sampleTicket) := rfl

/-- C1 amended: the substantial-progress gate governs the invocation of
`commit_and_push` at the end of a cycle: it is invoked exactly when
compiled is true, the tests summary is present and passed, and at least
3 steps produced a result; when the gate fails the block is a no-op.
A cycle may nevertheless produce version-control commits outside this
gate, because every edit step stages and commits on its own (see the
counterexample). -/
theorem commit_and_push_invoked_iff_gate (t : Ticket) (v : ValidationResult)
    (numResults : Nat) (log : RunLog) (w : World) :
    (maybeCommit t v numResults log w).2.commitPushCalls
      = w.commitPushCalls + (if shouldCommit v numResults then 1 else 0) ∧
    (shouldCommit v numResults = false → maybeCommit t v numResults log w = (log, w)) := by
  refine ⟨(maybeCommit_spec ..).2.2.2, ?_⟩
  intro hg
  simp [maybeCommit, hg]

/-- Witness for the amended C1 theorem: a failing gate leaves the state
untouched; a passing gate (compiled, tests passed, 3 results) invokes
`commit_and_push` exactly once. -/
theorem commit_and_push_invoked_iff_gate_witness :
    maybeCommit sampleTicket { compiled := some false } 0
        (initializeRunLog envBase sampleTicket sampleDeepPlan)
        (initialWorld envBase sampleTicket)
      = (initializeRunLog envBase sampleTicket sampleDeepPlan,
         initialWorld envBase sampleTicket) ∧
    (maybeCommit sampleTicket { compiled := some true, tests := some ⟨true, "ok"⟩ } 3
        (initializeRunLog envBase sampleTicket sampleDeepPlan)
        (initialWorld envBase sampleTicket)).2.commitPushCalls
      = (initialWorld envBase sampleTicket).commitPushCalls + 1 :=
  ⟨(commit_and_push_invoked_iff_gate ..).2 rfl,
   by
    have h := (commit_and_push_invoked_iff_gate sampleTicket
      { compiled := some true, tests := some ⟨true, "ok"⟩ } 3
      (initializeRunLog envBase sampleTicket sampleDeepPlan)
      (initialWorld envBase sampleTicket)).1
    simpa using h⟩

/-- C1 counterexample: in a run whose single cycle has one edit step
(creating a file), validation passes compiled and tests, but only 1
step produced a result, so the gate `compiled ∧ tests.passed ∧ ≥3
steps` is false and `commit_and_push` is never invoked — yet exactly
one git commit is produced in that cycle by the edit step itself.
Hence "a commit is produced in a cycle iff the gate holds" is false. -/
theorem commit_without_gate_counterexample :
    (executeTicket envEditCommit sampleTicket sampleDeepPlan).toOption.map
        (fun p => (p.1.status, p.1.commands.length, p.2.git.commitLog.length,
                   p.2.commitPushCalls))
      = some ("completed", 1, 1, 0) ∧
    shouldCommit { compiled := some true, tests := some ⟨true, "ok"⟩ } 1 = false :=
  ⟨rfl, rfl⟩

/-- C7 counterexample: in a run whose single cycle has one edit step
whose anchor is absent, the step raises, the executor records status
`failed` (journal writes 4 and 5), and the finalizer then overwrites it
with `completed` — the status thus changes twice and a terminal value
(`failed`) is overwritten by a different one, contradicting "changes at
most once / never overwritten". -/
theorem failed_status_overwritten_counterexample :
    (executeTicket envFailedStep sampleTicket sampleDeepPlan).toOption.map
        (fun p => p.2.journal.map (fun e => e.2.status))
      = some ["in_progress", "in_progress", "in_progress", "failed", "failed", "completed"] ∧
    "failed" ∈ ["in_progress", "in_progress", "in_progress", "failed", "failed", "completed"] ∧
    ["in_progress", "in_progress", "in_progress", "failed", "failed", "completed"].getLast?
      = some "completed" ∧
    ("failed" : String) ≠ "completed" :=
  ⟨rfl, by decide, by decide, by decide⟩
